import Mathlib

/-!
Verification of the karateway API gateway data plane against its
natural-language specification.

The Rust sources are shallowly embedded as executable Lean definitions:

* strings are `List Char` (`Str`), mirroring Rust `&str` operations
  (`starts_with`, `strip_prefix`, `split`, `trim`, `to_uppercase`);
* machine integers are `Nat`/`Int`; where i32 overflow matters the
  wrap-around is made explicit (`wrap32`);
* the f64 arithmetic of the token-bucket limiter is modelled exactly by
  round-to-nearest-even rational rounding to 53 significant bits (`fl`);
* Redis data structures are explicit values (sorted set as a list of
  member/score pairs, bucket hash as an optional record), and each limiter
  call returns the effects it would perform (new set, write, TTL);
* fallible operations return `Option`/`Except`.

Each embedded function carries the path of the Rust item it translates.
-/

namespace Karateway

/-- Rust string slices, embedded as character lists. -/
abbrev Str := List Char

/-- Rust `str::to_uppercase` (ASCII suffices for HTTP method names). -/
def strUpper (s : Str) : Str := s.map Char.toUpper

/-- `crates/karateway-core/src/models/api_route.rs`: enum `HttpMethod`. -/
inductive HttpMethod where
  | GET | POST | PUT | DELETE | PATCH | HEAD | OPTIONS
deriving DecidableEq

/-- `impl Display for HttpMethod` (api_route.rs): the uppercase name. -/
def HttpMethod.toStr : HttpMethod → Str
  | .GET => "GET".toList
  | .POST => "POST".toList
  | .PUT => "PUT".toList
  | .DELETE => "DELETE".toList
  | .PATCH => "PATCH".toList
  | .HEAD => "HEAD".toList
  | .OPTIONS => "OPTIONS".toList

/-- `crates/karateway-core/src/models/backend_service.rs`: struct
`BackendService`. Identifiers are abstracted from UUIDs to `Nat`;
`description`, `health_check_interval_seconds` and the timestamps are
omitted (the data plane code verified here never reads them). -/
structure BackendService where
  id : Nat
  name : Str
  base_url : Str
  health_check_url : Option Str
  timeout_ms : Int
  is_active : Bool
deriving DecidableEq

/-- `crates/karateway-core/src/models/api_route.rs`: struct `ApiRoute`
(`metadata` and the timestamps omitted: opaque to the data plane). -/
structure ApiRoute where
  id : Nat
  path_pattern : Str
  method : HttpMethod
  backend_service_id : Nat
  strip_path_prefix : Bool
  preserve_host_header : Bool
  timeout_ms : Option Int
  is_active : Bool
  priority : Int
deriving DecidableEq

/-- `crates/karateway-core/src/models/rate_limit.rs`: enum `IdentifierType`. -/
inductive IdentifierType where
  | Ip | ApiKey | UserId | Global
deriving DecidableEq

/-- `crates/karateway-core/src/models/rate_limit.rs`: struct `RateLimit`
(timestamps omitted). -/
structure RateLimit where
  id : Nat
  name : Str
  api_route_id : Option Nat
  max_requests : Int
  window_seconds : Int
  identifier_type : IdentifierType
  is_active : Bool
  burst_size : Option Int
deriving DecidableEq

/-- `crates/karateway-core/src/models/whitelist_rule.rs`: enum `RuleType`. -/
inductive RuleType where
  | Ip | ApiKey | Jwt | Custom
deriving DecidableEq

/-- The JSON values stored in a whitelist rule's `config` column, as read by
`whitelist_validator.rs` (`serde_json::Value`). -/
inductive Json where
  | null
  | bool (b : Bool)
  | num (n : Int)
  | str (s : Str)
  | arr (elems : List Json)
  | obj (fields : List (Str × Json))

/-- `crates/karateway-core/src/models/whitelist_rule.rs`: struct
`WhitelistRule` (timestamps omitted). -/
structure WhitelistRule where
  id : Nat
  rule_name : Str
  rule_type : RuleType
  api_route_id : Option Nat
  config : Json
  is_active : Bool
  priority : Int

/-- Association-list lookup, modelling `HashMap::get` / `DashMap::get`. -/
def lookupA {κ α : Type} [DecidableEq κ] (k : κ) : List (κ × α) → Option α
  | [] => none
  | e :: rest => if e.1 = k then some e.2 else lookupA k rest

/-- Association-list insert-or-replace, modelling `HashMap::insert`. -/
def insertA {κ α : Type} [DecidableEq κ] (k : κ) (v : α) : List (κ × α) → List (κ × α)
  | [] => [(k, v)]
  | e :: rest => if e.1 = k then (k, v) :: rest else e :: insertA k v rest

/-- `crates/gateway/src/config_loader.rs`: struct `GatewayConfig` (the
published snapshot), with the `HashMap`s as association lists. -/
structure GatewayConfig where
  services : List (Nat × BackendService)
  routes : List ApiRoute
  rate_limits : List (Option Nat × List RateLimit)
  whitelist_rules : List (Option Nat × List WhitelistRule)

/-- `config_loader.rs::load_config`, services section: iterate the rows the
repository returned and insert only those with `is_active`. -/
def loadServicesMap (rows : List BackendService) : List (Nat × BackendService) :=
  rows.foldl (fun m svc => if svc.is_active then insertA svc.id svc m else m) []

/-- `config_loader.rs::load_config`, group step for rate limits and
whitelist rules: `map.entry(key).or_insert_with(Vec::new).push(item)`. -/
def insertGroup {κ α : Type} [DecidableEq κ] (k : κ) (v : α) :
    List (κ × List α) → List (κ × List α)
  | [] => [(k, [v])]
  | e :: rest => if e.1 = k then (e.1, e.2 ++ [v]) :: rest else e :: insertGroup k v rest

/-- `config_loader.rs::load_config`: build a fresh snapshot from the rows the
four repository queries returned (the rate-limit and whitelist queries
already filter to `is_active` rows in SQL, `list_active`). -/
def loadConfig (serviceRows : List BackendService) (routeRows : List ApiRoute)
    (rateLimitRows : List RateLimit) (whitelistRows : List WhitelistRule) :
    GatewayConfig :=
  { services := loadServicesMap serviceRows
    routes := routeRows.filter (fun r => r.is_active)
    rate_limits := rateLimitRows.foldl (fun m l => insertGroup l.api_route_id l m) []
    whitelist_rules := whitelistRows.foldl (fun m r => insertGroup r.api_route_id r m) [] }

/-- The candidate predicate of `config_loader.rs::find_route`:
`route.method.to_string() == method.to_uppercase() &&
path.starts_with(&route.path_pattern)`. -/
def routeMatches (path method : Str) (rt : ApiRoute) : Bool :=
  decide (rt.method.toStr = strUpper method) && decide (rt.path_pattern <+: path)

/-- Rust `Iterator::max_by_key` over route priority: a left fold that
replaces the running maximum whenever the new key is `>=` it, so among
equal keys the last element wins. -/
def maxByPriority (l : List ApiRoute) : Option ApiRoute :=
  l.foldl
    (fun acc r =>
      match acc with
      | none => some r
      | some m => if m.priority ≤ r.priority then some r else some m)
    none

/-- `config_loader.rs::find_route`: filter the snapshot's routes by method
and path-pattern match, then take the maximum by `priority`. -/
def findRoute (cfg : GatewayConfig) (path method : Str) : Option ApiRoute :=
  maxByPriority (cfg.routes.filter (routeMatches path method))

/-- `config_loader.rs::get_service`: look the id up in the services map. -/
def getService (cfg : GatewayConfig) (serviceId : Nat) : Option BackendService :=
  lookupA serviceId cfg.services

/-- `crates/gateway/src/router.rs::route_request`: find the route, then its
backend service, and reject an inactive service. -/
def routeRequest (cfg : GatewayConfig) (path method : Str) :
    Option (ApiRoute × BackendService) := do
  let route ← findRoute cfg path method
  let service ← getService cfg route.backend_service_id
  if service.is_active then some (route, service) else none

/-- Rust `str::strip_prefix`: `some` of the remainder when `p` is a prefix
of `s`, otherwise `none`. -/
def removeLeading (p s : Str) : Option Str :=
  match p, s with
  | [], s => some s
  | _ :: _, [] => none
  | c :: p2, d :: s2 => if c = d then removeLeading p2 s2 else none

/-- `crates/gateway/src/router.rs::transform_path`: when the route strips
its prefix, remove `path_pattern` from the front and re-anchor the
remainder at `/`; otherwise return the path unchanged. -/
def transformPath (route : ApiRoute) (originalPath : Str) : Str :=
  if route.strip_path_prefix then
    match removeLeading route.path_pattern originalPath with
    | some stripped =>
        if stripped.isEmpty || !(decide (stripped.head? = some '/')) then
          '/' :: stripped
        else stripped
    | none => originalPath
  else originalPath

end Karateway

namespace Karateway

/-! Helper lemmas about the route maximum fold. -/

/-- The `max_by_key` fold started from `some m` yields an element of the
list or `m` itself, with a key at least `m`'s and at least every listed key. -/
theorem maxByPriority_fold_spec (l : List ApiRoute) :
    ∀ m r, l.foldl
        (fun acc r =>
          match acc with
          | none => some r
          | some m => if m.priority ≤ r.priority then some r else some m)
        (some m) = some r →
      (r = m ∨ r ∈ l) ∧ m.priority ≤ r.priority ∧ ∀ x ∈ l, x.priority ≤ r.priority := by
  induction l with
  | nil =>
      intro m r h
      simp only [List.foldl_nil, Option.some.injEq] at h
      subst h
      exact ⟨Or.inl rfl, le_refl _, by simp⟩
  | cons a t ih =>
      intro m r h
      simp only [List.foldl_cons] at h
      by_cases hle : m.priority ≤ a.priority
      · rw [if_pos hle] at h
        obtain ⟨hmem, hge, hall⟩ := ih a r h
        refine ⟨?_, le_trans hle hge, ?_⟩
        · rcases hmem with h1 | h1
          · exact Or.inr (by simp [h1])
          · exact Or.inr (List.mem_cons_of_mem _ h1)
        · intro x hx
          rcases List.mem_cons.mp hx with h1 | h1
          · exact h1 ▸ hge
          · exact hall x h1
      · rw [if_neg hle] at h
        obtain ⟨hmem, hge, hall⟩ := ih m r h
        refine ⟨?_, hge, ?_⟩
        · rcases hmem with h1 | h1
          · exact Or.inl h1
          · exact Or.inr (List.mem_cons_of_mem _ h1)
        · intro x hx
          rcases List.mem_cons.mp hx with h1 | h1
          · subst h1
            exact le_trans (le_of_not_le hle) hge
          · exact hall x h1

/-- The `max_by_key` fold started from `some m` always yields a value. -/
theorem maxByPriority_fold_isSome (l : List ApiRoute) :
    ∀ m, (l.foldl
        (fun acc r =>
          match acc with
          | none => some r
          | some m => if m.priority ≤ r.priority then some r else some m)
        (some m)).isSome := by
  induction l with
  | nil => intro m; rfl
  | cons a t ih =>
      intro m
      simp only [List.foldl_cons]
      by_cases hle : m.priority ≤ a.priority
      · rw [if_pos hle]; exact ih a
      · rw [if_neg hle]; exact ih m

/-- `maxByPriority` returns an element of the list whose priority bounds
every listed priority, and returns `none` exactly on the empty list. -/
theorem maxByPriority_spec (l : List ApiRoute) :
    (maxByPriority l = none ↔ l = []) ∧
    ∀ r, maxByPriority l = some r → r ∈ l ∧ ∀ x ∈ l, x.priority ≤ r.priority := by
  cases l with
  | nil => exact ⟨by simp [maxByPriority], by simp [maxByPriority]⟩
  | cons a t =>
      constructor
      · constructor
        · intro h
          exfalso
          unfold maxByPriority at h
          simp only [List.foldl_cons] at h
          have := maxByPriority_fold_isSome t a
          rw [h] at this
          simp at this
        · intro h; cases h
      · intro r h
        unfold maxByPriority at h
        simp only [List.foldl_cons] at h
        obtain ⟨hmem, _, hall⟩ := maxByPriority_fold_spec t a r h
        refine ⟨?_, ?_⟩
        · rcases hmem with h1 | h1
          · simp [h1]
          · exact List.mem_cons_of_mem _ h1
        · intro x hx
          rcases List.mem_cons.mp hx with h1 | h1
          · obtain ⟨_, hge, _⟩ := maxByPriority_fold_spec t a r h
            exact h1 ▸ hge
          · exact hall x h1

/-- C5: `find_route` considers exactly the snapshot routes whose method
equals the uppercased request method and whose `path_pattern` is a string
prefix of the request path; among those candidates it returns one with the
highest priority, and it returns nothing exactly when no candidate exists. -/
theorem find_route_picks_max_priority_prefix_candidate
    (cfg : GatewayConfig) (path method : Str) :
    (∀ rt, rt ∈ cfg.routes.filter (routeMatches path method) ↔
        rt ∈ cfg.routes ∧ rt.method.toStr = strUpper method ∧
          rt.path_pattern <+: path) ∧
    (findRoute cfg path method = none ↔
        cfg.routes.filter (routeMatches path method) = []) ∧
    (∀ r, findRoute cfg path method = some r →
        r ∈ cfg.routes.filter (routeMatches path method) ∧
        ∀ x ∈ cfg.routes.filter (routeMatches path method),
          x.priority ≤ r.priority) := by
  refine ⟨?_, ?_, ?_⟩
  · intro rt
    simp [List.mem_filter, routeMatches, and_assoc]
  · unfold findRoute
    exact (maxByPriority_spec _).1
  · unfold findRoute
    exact (maxByPriority_spec _).2

/-- Rust `str::strip_prefix` succeeds with remainder `rest` exactly when the
string is the pattern followed by `rest`. -/
theorem removeLeading_eq_some (p : Str) :
    ∀ s rest, removeLeading p s = some rest ↔ s = p ++ rest := by
  induction p with
  | nil =>
      intro s rest
      simp only [removeLeading, List.nil_append, Option.some.injEq]
  | cons c p2 ih =>
      intro s rest
      cases s with
      | nil => simp [removeLeading]
      | cons d s2 =>
          by_cases hc : c = d
          · subst hc
            simp [removeLeading, ih s2 rest]
          · show (if c = d then removeLeading p2 s2 else none) = some rest ↔ _
            rw [if_neg hc]
            constructor
            · intro h
              exact Option.noConfusion h
            · intro h
              simp only [List.cons_append] at h
              injection h with h1 h2
              exact absurd h1.symm hc

/-- C7: with `strip_path_prefix` set and the pattern a prefix of the path,
`transform_path` removes the pattern from the front and prepends `/` when
the remainder is empty or does not already begin with `/` (so the result
always starts with `/`); without `strip_path_prefix` the path is returned
unchanged. -/
theorem transform_path_strips_matched_pattern_and_anchors_at_slash
    (route : ApiRoute) (p : Str) :
    (route.strip_path_prefix = true → route.path_pattern <+: p →
        transformPath route p =
          (if p.drop route.path_pattern.length = [] ∨
              (p.drop route.path_pattern.length).head? ≠ some '/' then
            '/' :: p.drop route.path_pattern.length
          else p.drop route.path_pattern.length) ∧
        (transformPath route p).head? = some '/') ∧
    (route.strip_path_prefix = false → transformPath route p = p) := by
  constructor
  · intro hstrip hpre
    obtain ⟨rest, hrest⟩ := hpre
    have hdrop : p.drop route.path_pattern.length = rest := by
      rw [← hrest, List.drop_left]
    have hsome : removeLeading route.path_pattern p = some rest :=
      (removeLeading_eq_some route.path_pattern p rest).mpr hrest.symm
    have htp : transformPath route p =
        if rest.isEmpty || !(decide (rest.head? = some '/')) then
          '/' :: rest
        else rest := by
      unfold transformPath
      rw [hstrip, if_pos rfl, hsome]
    rw [hdrop, htp]
    by_cases hcond : rest = [] ∨ rest.head? ≠ some '/'
    · have hb : (rest.isEmpty || !(decide (rest.head? = some '/'))) = true := by
        rcases hcond with h1 | h1
        · simp [h1]
        · simp [h1]
      rw [hb, if_pos hcond]
      simp
    · push_neg at hcond
      have hb : (rest.isEmpty || !(decide (rest.head? = some '/'))) = false := by
        simp [hcond.1, hcond.2]
      rw [hb]
      simp [hcond.1, hcond.2]
  · intro hstrip
    unfold transformPath
    rw [hstrip]
    simp

/-! Association-list lemmas shared by the snapshot and health-map proofs. -/

theorem lookupA_insertA_self {κ α : Type} [DecidableEq κ] (k : κ) (v : α) :
    ∀ m, lookupA k (insertA k v m) = some v := by
  intro m
  induction m with
  | nil => simp [insertA, lookupA]
  | cons e rest ih =>
      by_cases he : e.1 = k
      · simp [insertA, he, lookupA]
      · simp [insertA, he, lookupA, ih]

theorem lookupA_insertA_ne {κ α : Type} [DecidableEq κ] (k k2 : κ) (v : α)
    (hne : k2 ≠ k) : ∀ m, lookupA k (insertA k2 v m) = lookupA k m := by
  intro m
  induction m with
  | nil => simp [insertA, lookupA, hne]
  | cons e rest ih =>
      by_cases he : e.1 = k2
      · simp [insertA, he, lookupA, hne]
      · simp only [insertA, if_neg he, lookupA]
        by_cases hek : e.1 = k
        · simp [hek]
        · simp [hek, ih]

/-- The services fold of `load_config`, from an arbitrary accumulator: a
lookup hit is either an active row of the input or a hit in the
accumulator. -/
theorem loadServicesMap_fold_lookup (rows : List BackendService) :
    ∀ (m : List (Nat × BackendService)) (sid : Nat) (svc : BackendService),
      lookupA sid
          (rows.foldl
            (fun m svc => if svc.is_active then insertA svc.id svc m else m) m) =
        some svc →
      (svc ∈ rows ∧ svc.id = sid ∧ svc.is_active = true) ∨
        lookupA sid m = some svc := by
  induction rows with
  | nil =>
      intro m sid svc h
      exact Or.inr h
  | cons a t ih =>
      intro m sid svc h
      simp only [List.foldl_cons] at h
      by_cases ha : a.is_active
      · rw [if_pos ha] at h
        rcases ih _ sid svc h with h1 | h1
        · exact Or.inl ⟨List.mem_cons_of_mem _ h1.1, h1.2⟩
        · by_cases hid : a.id = sid
          · subst hid
            rw [lookupA_insertA_self] at h1
            injection h1 with h2
            exact Or.inl ⟨by simp [← h2], by simp [← h2], by simp [← h2, ha]⟩
          · rw [lookupA_insertA_ne sid a.id a hid] at h1
            exact Or.inr h1
      · rw [if_neg ha] at h
        rcases ih _ sid svc h with h1 | h1
        · exact Or.inl ⟨List.mem_cons_of_mem _ h1.1, h1.2⟩
        · exact Or.inr h1

/-- The services fold of `load_config`, existence direction: an active row
of the input always leaves a lookup hit for its id. -/
theorem loadServicesMap_fold_isSome (rows : List BackendService) :
    ∀ (m : List (Nat × BackendService)) (sid : Nat),
      ((∃ svc, svc ∈ rows ∧ svc.id = sid ∧ svc.is_active = true) ∨
          (lookupA sid m).isSome = true) →
      (lookupA sid
          (rows.foldl
            (fun m svc => if svc.is_active then insertA svc.id svc m else m) m)).isSome =
        true := by
  induction rows with
  | nil =>
      intro m sid h
      rcases h with ⟨svc, hmem, _⟩ | h
      · exact absurd hmem (List.not_mem_nil svc)
      · exact h
  | cons a t ih =>
      intro m sid h
      simp only [List.foldl_cons]
      by_cases ha : a.is_active
      · rw [if_pos ha]
        rcases h with ⟨svc, hmem, hid, hact⟩ | h
        · rcases List.mem_cons.mp hmem with h1 | h1
          · subst h1
            by_cases hsid : ∃ svc2, svc2 ∈ t ∧ svc2.id = sid ∧ svc2.is_active = true
            · exact ih _ sid (Or.inl hsid)
            · refine ih _ sid (Or.inr ?_)
              rw [← hid, lookupA_insertA_self]
              rfl
          · exact ih _ sid (Or.inl ⟨svc, h1, hid, hact⟩)
        · by_cases hid : a.id = sid
          · refine ih _ sid (Or.inr ?_)
            rw [← hid, lookupA_insertA_self]
            rfl
          · refine ih _ sid (Or.inr ?_)
            rw [lookupA_insertA_ne sid a.id a hid]
            exact h
      · rw [if_neg ha]
        rcases h with ⟨svc, hmem, hid, hact⟩ | h
        · rcases List.mem_cons.mp hmem with h1 | h1
          · subst h1
            exact absurd hact (by simp [ha])
          · exact ih _ sid (Or.inl ⟨svc, h1, hid, hact⟩)
        · exact ih _ sid (Or.inr h)

/-- C2 (amended): after `load_config`, the published services map contains
exactly the service rows with `is_active = true`: every lookup hit is an
active enumerated row with the looked-up id, and every active enumerated
row leaves a hit for its id. Inactive service rows are excluded. -/
theorem load_config_services_map_keeps_exactly_active_rows
    (rows : List BackendService) (sid : Nat) :
    (∀ svc, lookupA sid (loadServicesMap rows) = some svc →
        svc ∈ rows ∧ svc.id = sid ∧ svc.is_active = true) ∧
    ((lookupA sid (loadServicesMap rows)).isSome = true ↔
        ∃ svc, svc ∈ rows ∧ svc.id = sid ∧ svc.is_active = true) := by
  constructor
  · intro svc h
    rcases loadServicesMap_fold_lookup rows [] sid svc h with h1 | h1
    · exact h1
    · exact Option.noConfusion h1
  · constructor
    · intro h
      rw [Option.isSome_iff_exists] at h
      obtain ⟨svc, hsvc⟩ := h
      rcases loadServicesMap_fold_lookup rows [] sid svc hsvc with h1 | h1
      · exact ⟨svc, h1⟩
      · exact Option.noConfusion h1
    · intro h
      exact loadServicesMap_fold_isSome rows [] sid (Or.inl h)

/-! Health checker, `crates/gateway/src/health_checker.rs`. -/

/-- `health_checker.rs`: enum `HealthStatus`. -/
inductive HealthStatus where
  | Healthy | Unhealthy | Unknown
deriving DecidableEq

/-- The `DashMap<Uuid, HealthStatus>` of the health checker, as an
association list. -/
abbrev HealthMap := List (Nat × HealthStatus)

/-- `health_checker.rs::is_healthy`: a recorded status must be `Healthy`;
a service never probed defaults to healthy. -/
def isHealthy (m : HealthMap) (serviceId : Nat) : Bool :=
  match lookupA serviceId m with
  | some status => decide (status = HealthStatus.Healthy)
  | none => true

/-- `health_checker.rs::get_status`: the recorded status, or `Unknown` when
none was recorded. -/
def getStatus (m : HealthMap) (serviceId : Nat) : HealthStatus :=
  (lookupA serviceId m).getD HealthStatus.Unknown

/-- `health_checker.rs::check_service`: skip services without a
`health_check_url`; otherwise record `Healthy` when the probe returned a
2xx status (`probe2xx`, summarizing the HTTP GET) and `Unhealthy` on any
other response, timeout or connection error. -/
def checkService (probe2xx : Nat → Bool) (serviceId : Nat) (svc : BackendService)
    (m : HealthMap) : HealthMap :=
  match svc.health_check_url with
  | none => m
  | some _ =>
      insertA serviceId
        (if probe2xx serviceId then HealthStatus.Healthy else HealthStatus.Unhealthy) m

/-- `health_checker.rs::check_all_services`: probe only the snapshot
services that configure a `health_check_url`. -/
def checkAllServices (probe2xx : Nat → Bool) (services : List (Nat × BackendService))
    (m : HealthMap) : HealthMap :=
  services.foldl
    (fun m e =>
      if e.2.health_check_url.isSome then checkService probe2xx e.1 e.2 m else m)
    m

/-- One probing pass never records `Unknown` and never touches keys other
than those it probes. -/
theorem checkAllServices_preserves_no_unknown (probe2xx : Nat → Bool)
    (services : List (Nat × BackendService)) :
    ∀ m, (∀ k st, lookupA k m = some st → st ≠ HealthStatus.Unknown) →
      ∀ k st, lookupA k (checkAllServices probe2xx services m) = some st →
        st ≠ HealthStatus.Unknown := by
  induction services with
  | nil =>
      intro m hm k st h
      exact hm k st h
  | cons e t ih =>
      intro m hm k st h
      unfold checkAllServices at h
      simp only [List.foldl_cons] at h
      by_cases hurl : e.2.health_check_url.isSome
      · rw [if_pos hurl] at h
        refine ih _ ?_ k st h
        intro k2 st2 h2
        unfold checkService at h2
        cases hcu : e.2.health_check_url with
        | none => rw [hcu] at h2; exact hm k2 st2 h2
        | some u =>
            rw [hcu] at h2
            by_cases hk : e.1 = k2
            · rw [← hk, lookupA_insertA_self] at h2
              injection h2 with h3
              intro hcontra
              rw [hcontra] at h3
              by_cases hp : probe2xx e.1
              · rw [if_pos hp] at h3; exact HealthStatus.noConfusion h3
              · rw [if_neg hp] at h3; exact HealthStatus.noConfusion h3
            · rw [lookupA_insertA_ne k2 e.1 _ hk] at h2
              exact hm k2 st2 h2
      · rw [if_neg hurl] at h
        exact ih _ hm k st h

/-- Services without a `health_check_url` are never probed: a pass leaves
their map entry unchanged. -/
theorem checkAllServices_skips_unconfigured (probe2xx : Nat → Bool) (sid : Nat)
    (services : List (Nat × BackendService)) :
    ∀ m, (∀ e ∈ services, e.1 = sid → e.2.health_check_url = none) →
      lookupA sid (checkAllServices probe2xx services m) = lookupA sid m := by
  induction services with
  | nil =>
      intro m _
      rfl
  | cons e t ih =>
      intro m hnone
      unfold checkAllServices
      simp only [List.foldl_cons]
      have ht : ∀ e2 ∈ t, e2.1 = sid → e2.2.health_check_url = none := by
        intro e2 he2 hid
        exact hnone e2 (List.mem_cons_of_mem _ he2) hid
      by_cases hurl : e.2.health_check_url.isSome
      · rw [if_pos hurl]
        have heq : lookupA sid (checkService probe2xx e.1 e.2 m) = lookupA sid m := by
          unfold checkService
          cases hcu : e.2.health_check_url with
          | none => rfl
          | some u =>
              by_cases hk : e.1 = sid
              · have := hnone e (List.mem_cons_self e t) hk
                rw [this] at hcu
                exact Option.noConfusion hcu
              · exact lookupA_insertA_ne sid e.1 _ hk m
        rw [← heq]
        exact ih (checkService probe2xx e.1 e.2 m) ht
      · rw [if_neg hurl]
        exact ih m ht

/-- C9: a service with no recorded probe result is reported healthy;
when the map holds only genuine probe results (never `Unknown`, an
invariant each probing pass preserves), `get_status` returns `Unknown`
exactly for services never probed; and a probing pass never touches a
service whose entries carry no `health_check_url`, so such services keep
reporting healthy. -/
theorem health_unknown_is_healthy_and_unprobed_stay_unknown
    (m : HealthMap) (sid : Nat) (services : List (Nat × BackendService))
    (probe2xx : Nat → Bool) :
    (lookupA sid m = none → isHealthy m sid = true) ∧
    ((∀ k st, lookupA k m = some st → st ≠ HealthStatus.Unknown) →
        (getStatus m sid = HealthStatus.Unknown ↔ lookupA sid m = none)) ∧
    ((∀ k st, lookupA k m = some st → st ≠ HealthStatus.Unknown) →
        ∀ k st, lookupA k (checkAllServices probe2xx services m) = some st →
          st ≠ HealthStatus.Unknown) ∧
    ((∀ e ∈ services, e.1 = sid → e.2.health_check_url = none) →
        lookupA sid (checkAllServices probe2xx services m) = lookupA sid m ∧
        (lookupA sid m = none →
          isHealthy (checkAllServices probe2xx services m) sid = true)) := by
  refine ⟨?_, ?_, ?_, ?_⟩
  · intro h
    unfold isHealthy
    rw [h]
  · intro hm
    unfold getStatus
    cases hl : lookupA sid m with
    | none => simp
    | some st =>
        simp only [Option.getD_some]
        constructor
        · intro h
          exact absurd h (hm sid st hl)
        · intro h
          exact Option.noConfusion h
  · intro hm
    exact checkAllServices_preserves_no_unknown probe2xx services m hm
  · intro hnone
    have hsk := checkAllServices_skips_unconfigured probe2xx sid services m hnone
    refine ⟨hsk, ?_⟩
    intro hmiss
    unfold isHealthy
    rw [hsk, hmiss]

/-! Whitelist validator, `crates/gateway/src/whitelist_validator.rs`, and the
rule collection of `crates/gateway/src/router.rs::get_whitelist_rules`. -/

/-- Request headers as name/value pairs; the validator reads them by the
exact literal names the source uses. -/
abbrev Headers := List (Str × Str)

/-- `serde_json::Value::get` on an object (None on other values). -/
def jsonGet (key : Str) : Json → Option Json
  | .obj fields => lookupA key fields
  | _ => none

/-- `serde_json::Value::as_array`. -/
def jsonAsArray : Json → Option (List Json)
  | .arr elems => some elems
  | _ => none

/-- `serde_json::Value::as_str`. -/
def jsonAsStr : Json → Option Str
  | .str s => some s
  | _ => none

/-- `arr.iter().filter_map(|v| v.as_str())` over a JSON array. -/
def strsOf (elems : List Json) : List Str :=
  elems.filterMap jsonAsStr

/-- Rust `str::contains(char)`. -/
def strContainsChar (c : Char) (s : Str) : Bool :=
  s.any (fun d => decide (d = c))

/-- Rust `s.split(c).next().unwrap_or("")`: the text before the first `c`. -/
def firstSegment (c : Char) (s : Str) : Str :=
  s.takeWhile (fun d => !(decide (d = c)))

/-- `whitelist_validator.rs::ip_matches`: with a `/` the CIDR suffix is
stripped and the address part compared literally (CIDR containment is
unimplemented); otherwise an exact compare. -/
def ipMatches (clientIp allowedPattern : Str) : Bool :=
  if strContainsChar '/' allowedPattern then
    decide (clientIp = firstSegment '/' allowedPattern)
  else decide (clientIp = allowedPattern)

/-- `whitelist_validator.rs::validate_ip_rule`. -/
def validateIpRule (rule : WhitelistRule) (clientIp : Option Str) : Bool :=
  match clientIp with
  | none => false
  | some ip =>
      match jsonGet "allowed_ips".toList rule.config with
      | none => false
      | some v =>
          match jsonAsArray v with
          | none => false
          | some arr => (strsOf arr).any (fun allowed => ipMatches ip allowed)

/-- `whitelist_validator.rs::validate_api_key_rule`. -/
def validateApiKeyRule (rule : WhitelistRule) (headers : Headers) : Bool :=
  match lookupA "X-API-Key".toList headers with
  | none => false
  | some key =>
      match jsonGet "allowed_keys".toList rule.config with
      | none => false
      | some v =>
          match jsonAsArray v with
          | none => false
          | some arr => (strsOf arr).any (fun allowed => decide (allowed = key))

/-- Rust `str::split(char)`: maximal runs between separators (an empty
string yields one empty piece, as in Rust). -/
def splitOnChar (c : Char) : Str → List Str
  | [] => [[]]
  | d :: rest =>
      if d = c then [] :: splitOnChar c rest
      else
        match splitOnChar c rest with
        | s :: groups => (d :: s) :: groups
        | [] => [[d]]

/-- `whitelist_validator.rs::validate_jwt_rule`: `Authorization` must start
with `Bearer ` and the token must have three dot-separated parts (signature
and claim verification are unimplemented). -/
def validateJwtRule (rule : WhitelistRule) (headers : Headers) : Bool :=
  match lookupA "Authorization".toList headers with
  | none => false
  | some auth =>
      match removeLeading "Bearer ".toList auth with
      | none => false
      | some token => decide ((splitOnChar '.' token).length = 3)

/-- The per-rule dispatch of `whitelist_validator.rs::validate_request`
(`custom` rules are unimplemented and never match). -/
def ruleMatches (headers : Headers) (clientIp : Option Str)
    (rule : WhitelistRule) : Bool :=
  match rule.rule_type with
  | .Ip => validateIpRule rule clientIp
  | .ApiKey => validateApiKeyRule rule headers
  | .Jwt => validateJwtRule rule headers
  | .Custom => false

/-- The rule loop of `validate_request`: the first matching rule admits the
request with its name; no match denies. -/
def validateLoop (headers : Headers) (clientIp : Option Str) :
    List WhitelistRule → Bool × Option Str
  | [] => (false, none)
  | r :: rs =>
      if ruleMatches headers clientIp r then (true, some r.rule_name)
      else validateLoop headers clientIp rs

/-- `whitelist_validator.rs::validate_request`: an empty rule list allows
the request; otherwise the rules are scanned in order. -/
def validateRequest (rules : List WhitelistRule) (headers : Headers)
    (clientIp : Option Str) : Bool × Option Str :=
  if rules.isEmpty then (true, none) else validateLoop headers clientIp rules

/-- The stable descending sort of `router.rs::get_whitelist_rules`
(`rules.sort_by(|a, b| b.priority.cmp(&a.priority))`), as insertion sort. -/
def insertDesc (r : WhitelistRule) : List WhitelistRule → List WhitelistRule
  | [] => [r]
  | x :: xs =>
      if x.priority < r.priority then r :: x :: xs else x :: insertDesc r xs

/-- Sort a rule list by descending priority. -/
def sortDescPriority : List WhitelistRule → List WhitelistRule
  | [] => []
  | r :: rs => insertDesc r (sortDescPriority rs)

/-- `router.rs::get_whitelist_rules`: route-scoped rules unioned with the
globals (`None` key), `None` when empty, sorted by descending priority. -/
def getWhitelistRules (cfg : GatewayConfig) (routeId : Nat) :
    Option (List WhitelistRule) :=
  let rules :=
    ((lookupA (some routeId) cfg.whitelist_rules).getD []) ++
      ((lookupA (none : Option Nat) cfg.whitelist_rules).getD [])
  if rules.isEmpty then none else some (sortDescPriority rules)

/-- Membership in an insertion step of the descending sort. -/
theorem mem_insertDesc (r x : WhitelistRule) :
    ∀ l, x ∈ insertDesc r l → x = r ∨ x ∈ l := by
  intro l
  induction l with
  | nil =>
      intro h
      rcases List.mem_singleton.mp h with h1
      exact Or.inl h1
  | cons a t ih =>
      intro h
      unfold insertDesc at h
      by_cases hlt : a.priority < r.priority
      · rw [if_pos hlt] at h
        rcases List.mem_cons.mp h with h1 | h1
        · exact Or.inl h1
        · exact Or.inr h1
      · rw [if_neg hlt] at h
        rcases List.mem_cons.mp h with h1 | h1
        · exact Or.inr (h1 ▸ List.mem_cons_self a t)
        · rcases ih h1 with h2 | h2
          · exact Or.inl h2
          · exact Or.inr (List.mem_cons_of_mem _ h2)

/-- Inserting into a descending-sorted list keeps it descending-sorted. -/
theorem insertDesc_pairwise (r : WhitelistRule) :
    ∀ l, List.Pairwise (fun a b => b.priority ≤ a.priority) l →
      List.Pairwise (fun a b => b.priority ≤ a.priority) (insertDesc r l) := by
  intro l
  induction l with
  | nil =>
      intro _
      exact List.pairwise_singleton _ r
  | cons a t ih =>
      intro h
      rcases List.pairwise_cons.mp h with ⟨ha, ht⟩
      unfold insertDesc
      by_cases hlt : a.priority < r.priority
      · rw [if_pos hlt]
        refine List.pairwise_cons.mpr ⟨?_, h⟩
        intro x hx
        rcases List.mem_cons.mp hx with h1 | h1
        · exact h1 ▸ le_of_lt hlt
        · exact le_trans (ha x h1) (le_of_lt hlt)
      · rw [if_neg hlt]
        refine List.pairwise_cons.mpr ⟨?_, ih ht⟩
        intro x hx
        rcases mem_insertDesc r x t hx with h1 | h1
        · exact h1 ▸ le_of_not_lt hlt
        · exact ha x h1

/-- The sort of `get_whitelist_rules` yields a descending-priority list. -/
theorem sortDescPriority_pairwise :
    ∀ l, List.Pairwise (fun a b => b.priority ≤ a.priority) (sortDescPriority l) := by
  intro l
  induction l with
  | nil => exact List.Pairwise.nil
  | cons a t ih => exact insertDesc_pairwise a _ ih

/-- C6: an empty rule list allows the request; a non-empty list is scanned
in order and the first matching rule admits the request, returning its
name, with denial when none matches; on the descending-priority order in
which `get_whitelist_rules` delivers the rules (always sorted, last
conjunct) the admitting rule has maximal priority among matching rules. -/
theorem validate_request_empty_allows_first_match_admits
    (rules : List WhitelistRule) (headers : Headers) (clientIp : Option Str) :
    (rules = [] → validateRequest rules headers clientIp = (true, none)) ∧
    (rules ≠ [] →
        validateRequest rules headers clientIp =
          match rules.find? (ruleMatches headers clientIp) with
          | some r => (true, some r.rule_name)
          | none => (false, none)) ∧
    (List.Pairwise (fun a b => b.priority ≤ a.priority) rules →
        ∀ r, rules.find? (ruleMatches headers clientIp) = some r →
          ∀ x ∈ rules, ruleMatches headers clientIp x = true →
            x.priority ≤ r.priority) ∧
    (∀ cfg routeId sorted, getWhitelistRules cfg routeId = some sorted →
        List.Pairwise (fun a b => b.priority ≤ a.priority) sorted) := by
  refine ⟨?_, ?_, ?_, ?_⟩
  · intro h
    subst h
    rfl
  · intro hne
    unfold validateRequest
    rw [if_neg (by simpa using hne)]
    clear hne
    induction rules with
    | nil => rfl
    | cons a t ih =>
        unfold validateLoop
        rw [List.find?_cons]
        by_cases hm : ruleMatches headers clientIp a
        · rw [if_pos hm, hm]
        · rw [if_neg hm]
          rw [show (ruleMatches headers clientIp a) = false from Bool.eq_false_iff.mpr hm]
          exact ih
  · induction rules with
    | nil =>
        intro _ r h
        exact Option.noConfusion h
    | cons a t ih =>
        intro hp r h x hx hmx
        rcases List.pairwise_cons.mp hp with ⟨ha, ht⟩
        rw [List.find?_cons] at h
        by_cases hm : ruleMatches headers clientIp a
        · rw [hm] at h
          injection h with h1
          rcases List.mem_cons.mp hx with h2 | h2
          · rw [h2, ← h1]
          · exact h1 ▸ ha x h2
        · rw [show (ruleMatches headers clientIp a) = false from Bool.eq_false_iff.mpr hm] at h
          rcases List.mem_cons.mp hx with h2 | h2
          · rw [h2] at hmx
            exact absurd hmx hm
          · exact ih ht r h x h2 hmx
  · intro cfg routeId sorted h
    unfold getWhitelistRules at h
    by_cases hemp :
        (((lookupA (some routeId) cfg.whitelist_rules).getD []) ++
          ((lookupA (none : Option Nat) cfg.whitelist_rules).getD [])).isEmpty
    · rw [if_pos hemp] at h
      exact Option.noConfusion h
    · rw [if_neg hemp] at h
      injection h with h1
      exact h1 ▸ sortDescPriority_pairwise _

/-! Sliding-window rate limiter,
`crates/gateway/src/rate_limiter.rs::check_rate_limit`. The Redis sorted
set behind `ratelimit:{key}` is a list of member/score pairs; scores are
unix seconds, exactly representable in the f64 scores Redis stores for the
values arising here (below 2^53). -/

/-- One sliding-window call's results and effects: the returned triple, the
sorted set as left in Redis, and the TTL set on the key (if any). -/
structure SlidingResult where
  allowed : Bool
  remaining : Int
  reset : Nat
  newSet : List (Str × Nat)
  ttl : Option Nat
deriving DecidableEq

/-- `conn.zrembyscore(&redis_key, 0, window_start)`: the members that
survive, i.e. those with score above `now - window_seconds` (the u64
subtraction cannot underflow for unix-time `now ≥ window_seconds`, which
the claim theorem assumes). -/
def activeMembers (zset : List (Str × Nat)) (now window_seconds : Nat) :
    List (Str × Nat) :=
  zset.filter (fun e => decide (now - window_seconds < e.2))

/-- The score `conn.zrange_withscores(&redis_key, 0, 0)` reports: ZRANGE 0 0
returns a member of minimal score, of which the source uses only the
score. -/
def minScore : List (Str × Nat) → Option Nat
  | [] => none
  | e :: rest =>
      some
        (match minScore rest with
        | none => e.2
        | some m => min e.2 m)

/-- `conn.zadd(&redis_key, request_id, now)`: update the member's score if
present, else add it. -/
def zadd (l : List (Str × Nat)) (member : Str) (score : Nat) : List (Str × Nat) :=
  if l.any (fun e => decide (e.1 = member)) then
    l.map (fun e => if e.1 = member then (member, score) else e)
  else l ++ [(member, score)]

/-- `rate_limiter.rs::check_rate_limit`: prune the window, count, then
either deny with the oldest member's reset time or admit, record the
request (`reqId` stands for the fresh `"{now}:{uuid}"` member) and refresh
the TTL. -/
def checkRateLimit (zset : List (Str × Nat)) (reqId : Str)
    (now max_requests window_seconds : Nat) : SlidingResult :=
  if max_requests ≤ (activeMembers zset now window_seconds).length then
    { allowed := false
      remaining := 0
      reset :=
        match minScore (activeMembers zset now window_seconds) with
        | some s => s + window_seconds
        | none => now + window_seconds
      newSet := activeMembers zset now window_seconds
      ttl := none }
  else
    { allowed := true
      remaining :=
        (max_requests : Int) - ((activeMembers zset now window_seconds).length : Int) - 1
      reset := now + window_seconds
      newSet := zadd (activeMembers zset now window_seconds) reqId now
      ttl := some (window_seconds + 60) }

/-- A `minScore` hit bounds every score in the set from below. -/
theorem minScore_le :
    ∀ (l : List (Str × Nat)) (s : Nat), minScore l = some s →
      ∀ e ∈ l, s ≤ e.2 := by
  intro l
  induction l with
  | nil =>
      intro s h
      exact Option.noConfusion h
  | cons a t ih =>
      intro s h e he
      unfold minScore at h
      injection h with h1
      rcases List.mem_cons.mp he with h2 | h2
      · cases hm : minScore t with
        | none => rw [hm] at h1; simp [← h1, h2]
        | some m => rw [hm] at h1; rw [h2] at *; rw [← h1]; exact min_le_left _ _
      · cases hm : minScore t with
        | none =>
            cases t with
            | nil => exact absurd h2 (List.not_mem_nil e)
            | cons b t2 => exact Option.noConfusion hm
        | some m =>
            rw [hm] at h1
            exact le_trans (h1 ▸ min_le_right a.2 m) (ih m hm e h2)

/-- A `minScore` hit is attained by some member. -/
theorem minScore_mem :
    ∀ (l : List (Str × Nat)) (s : Nat), minScore l = some s →
      ∃ e ∈ l, e.2 = s := by
  intro l
  induction l with
  | nil =>
      intro s h
      exact Option.noConfusion h
  | cons a t ih =>
      intro s h
      unfold minScore at h
      injection h with h1
      cases hm : minScore t with
      | none =>
          rw [hm] at h1
          exact ⟨a, List.mem_cons_self a t, h1⟩
      | some m =>
          rw [hm] at h1
          dsimp only at h1
          rcases le_total a.2 m with hle | hle
          · refine ⟨a, List.mem_cons_self a t, ?_⟩
            rw [← h1, min_eq_left hle]
          · obtain ⟨e, he, hes⟩ := ih m hm
            refine ⟨e, List.mem_cons_of_mem _ he, ?_⟩
            rw [hes, ← h1, min_eq_right hle]

/-- `minScore` yields a value on every non-empty set. -/
theorem minScore_isSome :
    ∀ (l : List (Str × Nat)), l ≠ [] → ∃ s, minScore l = some s := by
  intro l h
  cases l with
  | nil => exact absurd rfl h
  | cons a t => exact ⟨_, rfl⟩

/-- Adding a member that is not yet in the set appends it. -/
theorem zadd_fresh (l : List (Str × Nat)) (member : Str) (score : Nat)
    (h : ∀ e ∈ l, e.1 ≠ member) :
    zadd l member score = l ++ [(member, score)] := by
  unfold zadd
  rw [if_neg ?hne]
  case hne =>
    simp only [List.any_eq_true, not_exists]
    intro e
    intro hcontra
    rcases hcontra with ⟨he, heq⟩
    exact h e he (by simpa using heq)

/-- C3: the sliding-window check prunes members with score at most
`now - window_seconds`; if at least `max_requests` members remain it denies
with `remaining = 0` and `reset` the minimal remaining score plus the
window (no insert, no TTL refresh, and the set cannot be empty here, so the
`now + window` fallback of the source is unreachable); otherwise it inserts
the fresh member at score `now`, refreshes the TTL to
`window_seconds + 60`, and returns `(true, max - count - 1, now + window)`. -/
theorem sliding_window_check_spec
    (zset : List (Str × Nat)) (reqId : Str) (now M W : Nat)
    (hM : 0 < M) (hW : 0 < W) (hWnow : W ≤ now)
    (hfresh : ∀ e ∈ zset, e.1 ≠ reqId) :
    (M ≤ (activeMembers zset now W).length →
        ∃ s, minScore (activeMembers zset now W) = some s ∧
          checkRateLimit zset reqId now M W =
            { allowed := false, remaining := 0, reset := s + W,
              newSet := activeMembers zset now W, ttl := none } ∧
          (∀ e ∈ activeMembers zset now W, s ≤ e.2) ∧
          (∃ e ∈ activeMembers zset now W, e.2 = s)) ∧
    ((activeMembers zset now W).length < M →
        checkRateLimit zset reqId now M W =
          { allowed := true,
            remaining :=
              (M : Int) - ((activeMembers zset now W).length : Int) - 1,
            reset := now + W,
            newSet := activeMembers zset now W ++ [(reqId, now)],
            ttl := some (W + 60) }) := by
  constructor
  · intro hge
    have hne : activeMembers zset now W ≠ [] := by
      intro hcontra
      rw [hcontra] at hge
      simp at hge
      exact absurd hge (Nat.ne_of_gt hM)
    obtain ⟨s, hs⟩ := minScore_isSome _ hne
    refine ⟨s, hs, ?_, minScore_le _ s hs, minScore_mem _ s hs⟩
    unfold checkRateLimit
    rw [if_pos hge, hs]
  · intro hlt
    have hfresh2 : ∀ e ∈ activeMembers zset now W, e.1 ≠ reqId := by
      intro e he
      exact hfresh e (List.mem_of_mem_filter he)
    unfold checkRateLimit
    rw [if_neg (not_le_of_lt hlt), zadd_fresh _ _ _ hfresh2]

/-- C3 witness: a concrete sliding-window call in the admit branch: two
stored members, one outside the window, capacity three. -/
theorem sliding_window_check_witness :
    checkRateLimit [("a".toList, 95), ("b".toList, 40)] "r".toList 100 3 60 =
      { allowed := true, remaining := 1, reset := 160,
        newSet := [("a".toList, 95), ("r".toList, 100)], ttl := some 120 } := by
  have h :=
    (sliding_window_check_spec [("a".toList, 95), ("b".toList, 40)] "r".toList
        100 3 60 (by decide) (by decide) (by decide) (by decide)).2 (by decide)
  rw [h]
  decide

/-- A concrete service row with `is_active = false`, as the admin plane can
store one. -/
def inactiveService : BackendService :=
  { id := 7
    name := "billing".toList
    base_url := "http://billing:9000".toList
    health_check_url := none
    timeout_ms := 5000
    is_active := false }

/-- C2 counterexample: an enumerated service row with `is_active = false`
is absent from the services map `load_config` publishes, contradicting the
claim that the map contains every enumerated service row. -/
theorem load_config_drops_inactive_service_row :
    inactiveService.is_active = false ∧
    lookupA inactiveService.id (loadServicesMap [inactiveService]) = none ∧
    loadServicesMap [inactiveService] = [] :=
  ⟨rfl, rfl, rfl⟩

/-! Token-bucket rate limiter,
`crates/gateway/src/rate_limiter.rs::check_rate_limit_with_burst`. The
source computes the refill in f64 (`elapsed as f64 * refill_rate` with
`refill_rate = max_requests as f64 / window_seconds as f64`). Every f64
value is an integer multiple of a power of two; an operation rounds its
exact rational result to 53 significant bits, to nearest, ties to even.
`Frac` is an (unnormalized) rational, and `flF` performs exactly that
rounding on the positive values arising here (well inside the normal f64
range, so neither subnormals nor overflow can occur). -/

/-- An unnormalized rational: `num / den` with `den` positive throughout. -/
structure Frac where
  num : Int
  den : Nat
deriving DecidableEq

/-- Floor of a fraction (`den` positive), via flooring integer division. -/
def fracFloor (f : Frac) : Int := Int.fdiv f.num (f.den : Int)

/-- Ceiling of a fraction. -/
def fracCeil (f : Frac) : Int := -(fracFloor ⟨-f.num, f.den⟩)

/-- Exact product of two fractions. -/
def fracMul (a b : Frac) : Frac := ⟨a.num * b.num, a.den * b.den⟩

/-- Exact quotient of two fractions (division by zero, which the limiter
never performs since `window_seconds > 0`, yields 0). -/
def fracDiv (a b : Frac) : Frac :=
  if b.num = 0 then ⟨0, 1⟩
  else if b.num < 0 then ⟨-(a.num * (b.den : Int)), a.den * (-b.num).toNat⟩
  else ⟨a.num * (b.den : Int), a.den * b.num.toNat⟩

/-- Fuelled floor of log2 (`n ≥ 1`); 4096 fuel covers every integer arising
from the 64-bit quantities in scope. -/
def log2Nat : Nat → Nat → Nat
  | 0, _ => 0
  | fuel+1, n => if 2 ≤ n then log2Nat fuel (n / 2) + 1 else 0

/-- Fuelled ceiling of log2 (`n ≥ 1`). -/
def clog2Nat : Nat → Nat → Nat
  | 0, _ => 0
  | fuel+1, n => if 2 ≤ n then clog2Nat fuel ((n + 1) / 2) + 1 else 0

/-- The binary exponent of a positive fraction `q`: the `e` with
`2^e ≤ q < 2^(e+1)`. -/
def fracLog2 (q : Frac) : Int :=
  if (q.den : Int) ≤ q.num then (log2Nat 4096 (fracFloor q).toNat : Int)
  else -((clog2Nat 4096 (fracCeil (fracDiv ⟨1, 1⟩ q)).toNat : Int))

/-- Exact multiplication of a fraction by `2^k` (`k` of either sign). -/
def fracMul2z (k : Int) (q : Frac) : Frac :=
  if 0 ≤ k then ⟨q.num * ((2 ^ k.toNat : Nat) : Int), q.den⟩
  else ⟨q.num, q.den * 2 ^ (-k).toNat⟩

/-- IEEE-754 binary64 rounding of a nonnegative rational: scale into
`[2^52, 2^53)`, round to an integer significand to nearest with ties to
even, and scale back. -/
def flF (q : Frac) : Frac :=
  if q.num = 0 then ⟨0, 1⟩
  else
    let e := fracLog2 q
    let scaled := fracMul2z (52 - e) q
    let m0 := fracFloor scaled
    let rnum := scaled.num - m0 * (scaled.den : Int)
    let m : Int :=
      if 2 * rnum < (scaled.den : Int) then m0
      else if (scaled.den : Int) < 2 * rnum then m0 + 1
      else if m0 % 2 = 0 then m0 else m0 + 1
    fracMul2z (e - 52) ⟨m, 1⟩

/-- Rust `as` from f64 to an integer type truncates toward zero. -/
def fracTrunc (f : Frac) : Int :=
  if f.num < 0 then -(fracFloor ⟨-f.num, f.den⟩) else fracFloor f

/-- Rust `as i32` on an f64: truncate toward zero, saturating at the i32
range. -/
def f64ToI32 (f : Frac) : Int := max (-(2^31)) (min (fracTrunc f) (2^31 - 1))

/-- Rust `as u64` on an f64: truncate toward zero, saturating at `[0, 2^64)`. -/
def f64ToU64 (f : Frac) : Nat :=
  if f.num < 0 then 0 else min (fracFloor f).toNat (2^64 - 1)

/-- Two's-complement wrap-around of i32 arithmetic (Rust release builds). -/
def wrap32 (x : Int) : Int := (x + 2147483648) % 4294967296 - 2147483648

/-- `wrap32` is the identity on the i32 range. -/
theorem wrap32_eq_self (x : Int) (h1 : -2147483648 ≤ x) (h2 : x < 2147483648) :
    wrap32 x = x := by
  unfold wrap32
  rw [Int.emod_eq_of_lt (by omega) (by omega)]
  omega

/-- `rate_limiter.rs`: `let refill_rate = max_requests as f64 /
window_seconds as f64` (the i32→f64 casts are exact, the division
rounds). -/
def refillRate (max_requests window_seconds : Int) : Frac :=
  flF (fracDiv ⟨max_requests, 1⟩ ⟨window_seconds, 1⟩)

/-- `rate_limiter.rs`: `let tokens_to_add = (elapsed as f64 * refill_rate)
as i32` (the u64→f64 cast rounds beyond 2^53, the product rounds, the i32
cast truncates and saturates). -/
def tokensToAdd (elapsed : Nat) (max_requests window_seconds : Int) : Int :=
  f64ToI32 (flF (fracMul (flF ⟨(elapsed : Int), 1⟩)
    (refillRate max_requests window_seconds)))

/-- The `tokens`/`last_refill` hash at `ratelimit:bucket:{key}` (both
fields present, as this limiter writes them, or the key absent). -/
structure BucketState where
  tokens : Int
  last_refill : Nat
deriving DecidableEq

/-- One token-bucket call's results and effects: the returned triple and
the hash write with its TTL (`none` when nothing is written). -/
structure BucketResult where
  allowed : Bool
  remaining : Int
  reset : Nat
  write : Option (BucketState × Int)
deriving DecidableEq

/-- `let max_tokens = max_requests + burst_size` (i32 addition). -/
def bucketMaxTokens (max_requests burst_size : Int) : Int :=
  wrap32 (max_requests + burst_size)

/-- The token count after the refill step of `check_rate_limit_with_burst`:
initialize an absent hash to `(max_tokens, now)`, take
`elapsed = now.saturating_sub(last_refill)`, add the f64-computed refill
(i32 addition) and cap at `max_tokens`. -/
def bucketCurrent (state : Option BucketState) (now : Nat)
    (max_requests window_seconds burst_size : Int) : Int :=
  let max_tokens := bucketMaxTokens max_requests burst_size
  let cur0 := match state with | some s => s.tokens | none => max_tokens
  let last_refill := match state with | some s => s.last_refill | none => now
  min (wrap32 (cur0 + tokensToAdd (now - last_refill) max_requests window_seconds))
    max_tokens

/-- `rate_limiter.rs::check_rate_limit_with_burst`: after the refill,
a positive token count admits the request, consumes one token and persists
`(tokens, last_refill = now)` with TTL `window_seconds * 2`; otherwise the
call denies and writes nothing. The reset times reproduce the source's f64
expressions. -/
def checkRateLimitWithBurst (state : Option BucketState) (now : Nat)
    (max_requests window_seconds burst_size : Int) : BucketResult :=
  if 0 < bucketCurrent state now max_requests window_seconds burst_size then
    { allowed := true
      remaining := bucketCurrent state now max_requests window_seconds burst_size - 1
      reset := now + f64ToU64 (flF (fracDiv
        (flF ⟨wrap32 (bucketMaxTokens max_requests burst_size -
          (bucketCurrent state now max_requests window_seconds burst_size - 1)), 1⟩)
        (refillRate max_requests window_seconds)))
      write := some
        ({ tokens := bucketCurrent state now max_requests window_seconds burst_size - 1
           last_refill := now },
         wrap32 (window_seconds * 2)) }
  else
    { allowed := false
      remaining := 0
      reset := now + f64ToU64 (flF (fracDiv ⟨1, 1⟩
        (refillRate max_requests window_seconds)))
      write := none }

/-- Repeated calls against the same key, threading the persisted hash (the
state is unchanged when a call writes nothing): the list of admit flags. -/
def runBucket (now : Nat) (max_requests window_seconds burst_size : Int) :
    Nat → Option BucketState → List Bool
  | 0, _ => []
  | n+1, state =>
      (checkRateLimitWithBurst state now max_requests window_seconds burst_size).allowed ::
        runBucket now max_requests window_seconds burst_size n
          (match (checkRateLimitWithBurst state now max_requests window_seconds
              burst_size).write with
            | some (st2, _) => some st2
            | none => state)

/-- With no time elapsed the f64 refill contributes no token, whatever the
rate. -/
theorem tokensToAdd_zero (max_requests window_seconds : Int) :
    tokensToAdd 0 max_requests window_seconds = 0 := by
  simp [tokensToAdd, flF, fracMul, f64ToI32, fracTrunc, fracFloor]

/-- The refilled token count never exceeds `max_tokens`. -/
theorem bucketCurrent_le (state : Option BucketState) (now : Nat)
    (M W B : Int) :
    bucketCurrent state now M W B ≤ bucketMaxTokens M B := by
  unfold bucketCurrent
  cases state <;> exact min_le_right _ _

/-- C10: whenever a token-bucket call writes the hash, the persisted token
count lies in `[0, max_requests + burst_size - 1]` and `last_refill` is set
to `now`; a denied call writes nothing. -/
theorem token_bucket_persisted_tokens_bounded
    (state : Option BucketState) (now : Nat) (M W B : Int)
    (hM : 0 < M) (hW : 0 < W) (hB : 0 ≤ B) (hMB : M + B < 2^31) :
    (∀ st ttl, (checkRateLimitWithBurst state now M W B).write = some (st, ttl) →
        0 ≤ st.tokens ∧ st.tokens ≤ M + B - 1 ∧ st.last_refill = now) ∧
    ((checkRateLimitWithBurst state now M W B).allowed = false →
        (checkRateLimitWithBurst state now M W B).write = none) := by
  have hpow : (2 : Int)^31 = 2147483648 := by norm_num
  rw [hpow] at hMB
  have hmb : bucketMaxTokens M B = M + B := by
    unfold bucketMaxTokens
    exact wrap32_eq_self _ (by omega) hMB
  constructor
  · intro st ttl h
    unfold checkRateLimitWithBurst at h
    by_cases hcur : 0 < bucketCurrent state now M W B
    · rw [if_pos hcur] at h
      simp only [Option.some.injEq, Prod.mk.injEq] at h
      obtain ⟨hst, _⟩ := h
      have hle : bucketCurrent state now M W B ≤ M + B :=
        hmb ▸ bucketCurrent_le state now M W B
      rw [← hst]
      refine ⟨?_, ?_, rfl⟩
      · show 0 ≤ bucketCurrent state now M W B - 1
        omega
      · show bucketCurrent state now M W B - 1 ≤ M + B - 1
        omega
    · rw [if_neg hcur] at h
      simp at h
  · intro hfalse
    unfold checkRateLimitWithBurst at hfalse ⊢
    by_cases hcur : 0 < bucketCurrent state now M W B
    · rw [if_pos hcur] at hfalse
      simp at hfalse
    · rw [if_neg hcur]

/-- C10 witness: a stored bucket of two tokens at the same instant is
admitted and persists one token within the claimed bounds. -/
theorem token_bucket_persisted_tokens_bounded_witness :
    0 ≤ (1 : Int) ∧ (1 : Int) ≤ 5 + 0 - 1 ∧ 50 = 50 :=
  (token_bucket_persisted_tokens_bounded (some ⟨2, 50⟩) 50 5 10 0
      (by decide) (by decide) (by decide) (by decide)).1
    ⟨1, 50⟩ (wrap32 (10 * 2)) (by decide)

/-- One call at the very instant of the last refill: a positive stored
token count is admitted and decremented, an empty bucket is denied and left
unwritten. -/
theorem bucket_step_same_now (now : Nat) (M W B : Int) (v : Int)
    (hM : 0 < M) (hB : 0 ≤ B) (hMB : M + B < 2147483648)
    (hv0 : 0 ≤ v) (hv : v ≤ M + B) :
    (0 < v →
        (checkRateLimitWithBurst (some ⟨v, now⟩) now M W B).allowed = true ∧
        (checkRateLimitWithBurst (some ⟨v, now⟩) now M W B).write =
          some (⟨v - 1, now⟩, wrap32 (W * 2))) ∧
    (v = 0 →
        (checkRateLimitWithBurst (some ⟨v, now⟩) now M W B).allowed = false ∧
        (checkRateLimitWithBurst (some ⟨v, now⟩) now M W B).write = none) := by
  have hcur : bucketCurrent (some ⟨v, now⟩) now M W B = v := by
    unfold bucketCurrent
    simp only [Nat.sub_self, tokensToAdd_zero, add_zero]
    have hmb : bucketMaxTokens M B = M + B := by
      unfold bucketMaxTokens
      exact wrap32_eq_self _ (by omega) hMB
    rw [wrap32_eq_self v (by omega) (by omega), hmb]
    exact min_eq_left hv
  constructor
  · intro hpos
    unfold checkRateLimitWithBurst
    rw [if_pos (by rw [hcur]; exact hpos)]
    rw [hcur]
    exact ⟨rfl, rfl⟩
  · intro hzero
    unfold checkRateLimitWithBurst
    rw [if_neg (by rw [hcur, hzero]; omega)]
    exact ⟨rfl, rfl⟩

/-- Draining a stored bucket of `v` tokens by immediate calls: the first
`v` are admitted, everything after is denied. -/
theorem runBucket_same_now (now : Nat) (M W B : Int)
    (hM : 0 < M) (hB : 0 ≤ B) (hMB : M + B < 2147483648) :
    ∀ (n : Nat) (v : Int), 0 ≤ v → v ≤ M + B →
      runBucket now M W B n (some ⟨v, now⟩) =
        List.replicate (min n v.toNat) true ++ List.replicate (n - v.toNat) false := by
  intro n
  induction n with
  | zero =>
      intro v _ _
      simp [runBucket]
  | succ n ih =>
      intro v hv0 hv
      by_cases hpos : 0 < v
      · obtain ⟨hall, hwr⟩ :=
          (bucket_step_same_now now M W B v hM hB hMB hv0 hv).1 hpos
        unfold runBucket
        rw [hall, hwr]
        show true :: runBucket now M W B n (some ⟨v - 1, now⟩) = _
        rw [ih (v - 1) (by omega) (by omega)]
        have htn : v.toNat = (v - 1).toNat + 1 := by omega
        rw [htn, Nat.succ_min_succ, Nat.succ_sub_succ]
        rfl
      · have hzero : v = 0 := by omega
        obtain ⟨hall, hwr⟩ :=
          (bucket_step_same_now now M W B v hM hB hMB hv0 hv).2 hzero
        unfold runBucket
        rw [hall, hwr]
        show false :: runBucket now M W B n (some ⟨v, now⟩) = _
        rw [ih v hv0 hv]
        rw [hzero]
        simp [List.replicate_succ]

/-- C4 (amended): an absent bucket hash behaves as one initialized to
`(max_tokens = max_requests + burst_size, now)`; the refill adds the
f64-computed `trunc(fl(elapsed * fl(max_requests / window_seconds)))`
tokens — which can fall short of the exact `floor(elapsed * max_requests /
window_seconds)` — capped at `max_tokens`, with `elapsed = max(0, now -
last_refill)`; a positive refilled count admits the request, consumes one
token and persists `(tokens, last_refill = now)` with TTL
`2 * window_seconds`, otherwise the call denies and writes nothing; and
from an absent bucket exactly `max_requests + burst_size` immediate
requests are admitted before the first denial. -/
theorem token_bucket_init_refill_consume_and_burst
    (st : BucketState) (now : Nat) (M W B : Int) (n : Nat)
    (hM : 0 < M) (hW : 0 < W) (hB : 0 ≤ B) (hMB : M + B < 2^31)
    (hW2 : W * 2 < 2^31) :
    checkRateLimitWithBurst none now M W B =
      checkRateLimitWithBurst (some ⟨M + B, now⟩) now M W B ∧
    ((0 < min (wrap32 (st.tokens + tokensToAdd (now - st.last_refill) M W)) (M + B) →
        (checkRateLimitWithBurst (some st) now M W B).allowed = true ∧
        (checkRateLimitWithBurst (some st) now M W B).remaining =
          min (wrap32 (st.tokens + tokensToAdd (now - st.last_refill) M W)) (M + B) - 1 ∧
        (checkRateLimitWithBurst (some st) now M W B).write =
          some (⟨min (wrap32 (st.tokens + tokensToAdd (now - st.last_refill) M W)) (M + B) - 1,
                now⟩,
            W * 2)) ∧
      (min (wrap32 (st.tokens + tokensToAdd (now - st.last_refill) M W)) (M + B) ≤ 0 →
        (checkRateLimitWithBurst (some st) now M W B).allowed = false ∧
        (checkRateLimitWithBurst (some st) now M W B).remaining = 0 ∧
        (checkRateLimitWithBurst (some st) now M W B).write = none)) ∧
    runBucket now M W B n none =
      List.replicate (min n (M + B).toNat) true ++
        List.replicate (n - (M + B).toNat) false := by
  have hpow : (2 : Int)^31 = 2147483648 := by norm_num
  rw [hpow] at hMB hW2
  have hmb : bucketMaxTokens M B = M + B := by
    unfold bucketMaxTokens
    exact wrap32_eq_self _ (by omega) hMB
  have hw2 : wrap32 (W * 2) = W * 2 := wrap32_eq_self _ (by omega) hW2
  have hinit : bucketCurrent none now M W B =
      bucketCurrent (some ⟨M + B, now⟩) now M W B := by
    unfold bucketCurrent
    simp only [hmb]
  refine ⟨?_, ⟨?_, ?_⟩, ?_⟩
  · unfold checkRateLimitWithBurst
    rw [hinit]
  · intro hpos
    have hcur : bucketCurrent (some st) now M W B =
        min (wrap32 (st.tokens + tokensToAdd (now - st.last_refill) M W)) (M + B) := by
      unfold bucketCurrent
      simp only [hmb]
    unfold checkRateLimitWithBurst
    rw [hcur, if_pos hpos, hw2]
    exact ⟨rfl, rfl, rfl⟩
  · intro hle
    have hcur : bucketCurrent (some st) now M W B =
        min (wrap32 (st.tokens + tokensToAdd (now - st.last_refill) M W)) (M + B) := by
      unfold bucketCurrent
      simp only [hmb]
    unfold checkRateLimitWithBurst
    rw [hcur, if_neg (by omega)]
    exact ⟨rfl, rfl, rfl⟩
  · cases n with
    | zero => simp [runBucket]
    | succ n =>
        have hfirst := (bucket_step_same_now now M W B (M + B) hM hB hMB
          (by omega) (le_refl _))
        obtain ⟨hall, hwr⟩ := hfirst.1 (by omega)
        have hbase : checkRateLimitWithBurst none now M W B =
            checkRateLimitWithBurst (some ⟨M + B, now⟩) now M W B := by
          unfold checkRateLimitWithBurst
          rw [hinit]
        unfold runBucket
        rw [hbase, hall, hwr]
        show true :: runBucket now M W B n (some ⟨M + B - 1, now⟩) = _
        rw [runBucket_same_now now M W B hM hB hMB n (M + B - 1) (by omega) (by omega)]
        have htn : (M + B).toNat = (M + B - 1).toNat + 1 := by omega
        rw [htn, Nat.succ_min_succ, Nat.succ_sub_succ]
        rfl

/-- C4 witness: max 5, window 10, no burst: seven immediate calls from an
absent bucket admit exactly five requests and then deny. -/
theorem token_bucket_burst_capacity_witness :
    runBucket 100 5 10 0 7 none =
      List.replicate 5 true ++ List.replicate 2 false := by
  have h := (token_bucket_init_refill_consume_and_burst ⟨0, 100⟩ 100 5 10 0 7
      (by decide) (by decide) (by decide) (by decide) (by decide)).2.2
  rw [h]
  decide

/-- C4 counterexample: with `max_requests = 29`, `window_seconds = 100` and
100 elapsed seconds the source's f64 refill adds
`trunc(100 * fl(29/100)) = 28` tokens although the claimed formula gives
`floor(100 * 29 / 100) = 29`: a bucket holding 0 tokens and burst 5 refills
to 28 and returns `remaining = 27`, not the claimed
`min(34, 0 + 29) - 1 = 28`. -/
theorem token_bucket_refill_differs_from_exact_floor :
    tokensToAdd 100 29 100 = 28 ∧
    ((100 * 29) / 100 : Int) = 29 ∧
    (checkRateLimitWithBurst (some ⟨0, 1000⟩) 1100 29 100 5).remaining = 27 ∧
    (checkRateLimitWithBurst (some ⟨0, 1000⟩) 1100 29 100 5).remaining ≠
      min (29 + 5) (0 + (100 * 29) / 100) - 1 := by
  exact ⟨by decide, by decide, by decide, by decide⟩

/-! Proxy engine, `crates/gateway/src/proxy.rs`: the per-request pipeline of
`request_filter` and the header mutation of `upstream_request_filter`. -/

/-- The pieces of `url::Url` the proxy reads from a parsed `base_url`. -/
structure UrlParts where
  scheme : Str
  host : Str
  port : Option Nat
deriving DecidableEq

/-- Split an absolute URL at its `://`, yielding scheme and remainder. -/
def splitScheme : Str → Option (Str × Str)
  | [] => none
  | c :: rest =>
      if c = ':' then
        match rest with
        | '/' :: '/' :: r => some ([], r)
        | _ => none
      else
        match splitScheme rest with
        | some (sch, r) => some (c :: sch, r)
        | none => none

/-- Parse a decimal port; `none` on an empty or non-digit string. -/
def parsePort (s : Str) : Option Nat :=
  if s.isEmpty then none
  else
    s.foldl
      (fun acc c =>
        match acc with
        | none => none
        | some n => if c.isDigit then some (n * 10 + (c.toNat - 48)) else none)
      (some 0)

/-- `url::Url::parse` on the http(s) base URLs in scope: scheme before
`://`, then host up to `:` or `/`, then an explicit port. (The url crate's
normalization of scheme-default ports to `None` is not modelled; no claim
reads the port.) -/
def parseUrl (s : Str) : Option UrlParts :=
  match splitScheme s with
  | none => none
  | some (sch, rest) =>
      let auth := rest.takeWhile (fun c => !(decide (c = '/')))
      some
        { scheme := sch
          host := auth.takeWhile (fun c => !(decide (c = ':')))
          port :=
            match auth.dropWhile (fun c => !(decide (c = ':'))) with
            | ':' :: ds => parsePort ds
            | _ => none }

/-- `proxy.rs`: struct `RequestContext`. -/
structure RequestContext where
  upstream_host : Str
  upstream_port : Nat
  upstream_path : Str
  use_tls : Bool
  preserve_host : Bool
  route_id : Option Nat
deriving DecidableEq

/-- `proxy.rs::request_filter`, rewrite step (lines 397-428): parse the
backend URL (failure is an internal error), transform the path, carry the
query, and fill the context: host (or `localhost`), port (explicit or 443
for https / 80 otherwise), and `use_tls` exactly when the *backend* URL's
scheme is `https`. -/
def buildContext (route : ApiRoute) (service : BackendService) (path : Str)
    (query : Option Str) : Option RequestContext :=
  match parseUrl service.base_url with
  | none => none
  | some u =>
      some
        { upstream_host := if u.host.isEmpty then "localhost".toList else u.host
          upstream_port :=
            u.port.getD (if u.scheme = "https".toList then 443 else 80)
          upstream_path :=
            transformPath route path ++
              (match query with
                | some q => '?' :: q
                | none => [])
          use_tls := decide (u.scheme = "https".toList)
          preserve_host := route.preserve_host_header
          route_id := some route.id }

/-- `RequestHeader::insert_header`: set or replace a header. -/
def insertHeader (name value : Str) (hs : Headers) : Headers :=
  insertA name value hs

/-- `proxy.rs::upstream_request_filter` header mutation: overwrite `Host`
with the upstream host unless the route preserves it, then set
`X-Forwarded-Proto` from `ctx.use_tls`. `inboundTls` is how the client
connected to the gateway (the session's listener); the source never reads
it here. -/
def upstreamRequestFilter (inboundTls : Bool) (ctx : RequestContext)
    (upstreamHeaders : Headers) : Headers :=
  let afterHost :=
    if !ctx.preserve_host then
      insertHeader "Host".toList ctx.upstream_host upstreamHeaders
    else upstreamHeaders
  insertHeader "X-Forwarded-Proto".toList
    (if ctx.use_tls then "https".toList else "http".toList) afterHost

/-- The scheme of the inbound client connection, as the claim's reference
value: `https` exactly when the client reached the gateway over TLS. -/
def inboundScheme (inboundTls : Bool) : Str :=
  if inboundTls then "https".toList else "http".toList

/-- C1 (amended): the `X-Forwarded-Proto` header injected on the upstream
request is `https` or `http` according to `ctx.use_tls`, which
`request_filter` sets from the backend `base_url`'s scheme; the inbound
scheme is never consulted (flipping it leaves the upstream headers
unchanged). -/
theorem x_forwarded_proto_follows_backend_scheme
    (inboundTls : Bool) (ctx : RequestContext) (hs : Headers)
    (route : ApiRoute) (service : BackendService) (path : Str)
    (query : Option Str) :
    lookupA "X-Forwarded-Proto".toList (upstreamRequestFilter inboundTls ctx hs) =
      some (if ctx.use_tls then "https".toList else "http".toList) ∧
    upstreamRequestFilter inboundTls ctx hs =
      upstreamRequestFilter (!inboundTls) ctx hs ∧
    (∀ u c, parseUrl service.base_url = some u →
        buildContext route service path query = some c →
        c.use_tls = decide (u.scheme = "https".toList)) := by
  refine ⟨?_, rfl, ?_⟩
  · unfold upstreamRequestFilter insertHeader
    exact lookupA_insertA_self _ _ _
  · intro u c hu hc
    unfold buildContext at hc
    rw [hu] at hc
    injection hc with h1
    rw [← h1]

/-- C1 witness: a route to an `https` backend with host preservation off. -/
theorem x_forwarded_proto_follows_backend_scheme_witness :
    lookupA "X-Forwarded-Proto".toList
        (upstreamRequestFilter false
          { upstream_host := "payments.internal".toList, upstream_port := 8443,
            upstream_path := "/pay".toList, use_tls := true,
            preserve_host := false, route_id := some 4 } []) =
      some (if true then "https".toList else "http".toList) :=
  (x_forwarded_proto_follows_backend_scheme false
      { upstream_host := "payments.internal".toList, upstream_port := 8443,
        upstream_path := "/pay".toList, use_tls := true,
        preserve_host := false, route_id := some 4 } []
      { id := 4, path_pattern := "/pay".toList, method := .POST,
        backend_service_id := 9, strip_path_prefix := false,
        preserve_host_header := false, timeout_ms := none, is_active := true,
        priority := 10 }
      { id := 9, name := "payments".toList,
        base_url := "https://payments.internal:8443".toList,
        health_check_url := none, timeout_ms := 3000, is_active := true }
      "/pay".toList none).1

/-- A backend service reached over https, with the gateway listening for
the client in plain http. -/
def httpsBackend : BackendService :=
  { id := 9
    name := "payments".toList
    base_url := "https://payments.internal:8443".toList
    health_check_url := none
    timeout_ms := 3000
    is_active := true }

/-- A route forwarding to `httpsBackend`. -/
def payRoute : ApiRoute :=
  { id := 4
    path_pattern := "/pay".toList
    method := .POST
    backend_service_id := 9
    strip_path_prefix := false
    preserve_host_header := false
    timeout_ms := none
    is_active := true
    priority := 10 }

/-- C1 counterexample: a client connecting over plain http
(`inboundScheme false = "http"`) to a route whose backend `base_url` is
`https://...` gets `X-Forwarded-Proto: https` injected upstream — the
header tracks the backend's scheme, not the inbound scheme. -/
theorem x_forwarded_proto_contradicts_inbound_scheme :
    ((buildContext payRoute httpsBackend "/pay/checkout".toList none).map
        (fun c =>
          lookupA "X-Forwarded-Proto".toList (upstreamRequestFilter false c []))) =
      some (some "https".toList) ∧
    inboundScheme false = "http".toList ∧
    ¬("https".toList = ("http".toList : Str)) := by
  exact ⟨by decide, by decide, by decide⟩

/-- `router.rs::get_rate_limits`: route-scoped limits unioned with the
globals (`None` key); `None` when the union is empty. -/
def getRateLimits (cfg : GatewayConfig) (routeId : Nat) : Option (List RateLimit) :=
  let limits :=
    ((lookupA (some routeId) cfg.rate_limits).getD []) ++
      ((lookupA (none : Option Nat) cfg.rate_limits).getD [])
  if limits.isEmpty then none else some limits

/-- Rust `str::trim` on the space-separated values in scope. -/
def strTrim (s : Str) : Str :=
  (((s.dropWhile (fun c => c = ' ')).reverse).dropWhile (fun c => c = ' ')).reverse

/-- `proxy.rs::get_client_ip`: the first comma-separated value of
`X-Forwarded-For`, trimmed; else the peer socket's IP. -/
def clientIpOf (headers : Headers) (peerIp : Option Str) : Option Str :=
  match lookupA "X-Forwarded-For".toList headers with
  | some s => some (strTrim (firstSegment ',' s))
  | none => peerIp

/-- `proxy.rs::request_filter`, identifier extraction per
`limit.identifier_type`. -/
def identifierFor (ty : IdentifierType) (headers : Headers)
    (peerIp : Option Str) : Str :=
  match ty with
  | .Ip => (clientIpOf headers peerIp).getD "unknown".toList
  | .ApiKey => (lookupA "X-API-Key".toList headers).getD "no-api-key".toList
  | .UserId => (lookupA "X-User-ID".toList headers).getD "no-user-id".toList
  | .Global => "global".toList

/-- The limiter as the proxy sees it: a call on the key components
(`"{route_id}:{identifier_type}:{identifier}"`), max, window and optional
burst, returning the `(allowed, remaining, reset)` triple or a KV-transport
error (the `Result` of `check_rate_limit(_with_burst)`, with Redis and the
clock folded into the oracle). -/
abbrev KvCheck :=
  Nat → IdentifierType → Str → Int → Int → Option Int →
    Except Unit (Bool × Int × Nat)

/-- The rate-limit loop of `request_filter` (lines 233-393): evaluate every
applicable limit in order; a transport error aborts the request, the first
denying limit is returned, and only a fully allowed pass falls through. -/
def checkLimits (kv : KvCheck) (routeId : Nat) (headers : Headers)
    (peerIp : Option Str) : List RateLimit → Except Unit (Option RateLimit)
  | [] => .ok none
  | l :: ls =>
      match kv routeId l.identifier_type
          (identifierFor l.identifier_type headers peerIp)
          l.max_requests l.window_seconds l.burst_size with
      | .error e => .error e
      | .ok (allowed, _, _) =>
          if allowed then checkLimits kv routeId headers peerIp ls
          else .ok (some l)

/-- The terminal outcome of `request_filter` for one request. -/
inductive FilterOutcome where
  | notFound
  | forbidden
  | unavailable (serviceName : Str)
  | rateLimited (limitName : Str)
  | internalError
  | forward (ctx : RequestContext)
deriving DecidableEq

/-- `proxy.rs::request_filter`: route, whitelist, health gate, rate limits
(when a limiter is configured), then the upstream rewrite. A limiter
transport error maps to `InternalError` (the `map_err(...)?` at lines
303-310), as does an unparsable backend URL. -/
def requestFilter (cfg : GatewayConfig) (health : HealthMap)
    (limiterConfigured : Bool) (kv : KvCheck) (path method : Str)
    (headers : Headers) (peerIp : Option Str) (query : Option Str) :
    FilterOutcome :=
  match routeRequest cfg path method with
  | none => .notFound
  | some (route, service) =>
      if (match getWhitelistRules cfg route.id with
          | none => true
          | some rules =>
              (validateRequest rules headers (clientIpOf headers peerIp)).1) =
          false then
        .forbidden
      else if isHealthy health service.id = false then
        .unavailable service.name
      else
        match
          (if limiterConfigured then
            match getRateLimits cfg route.id with
            | none => Except.ok none
            | some limits => checkLimits kv route.id headers peerIp limits
          else Except.ok none) with
        | .error _ => .internalError
        | .ok (some l) => .rateLimited l.name
        | .ok none =>
            match buildContext route service path query with
            | none => .internalError
            | some ctx => .forward ctx

/-- C8: when the request reaches the rate-limit stage (a route matched, the
whitelist allowed, the service is healthy, a limiter is configured with
limits applying to the route) and the KV-store operation fails, the
pipeline returns an internal error and the request is never forwarded
upstream. -/
theorem limiter_transport_error_fails_closed
    (cfg : GatewayConfig) (health : HealthMap) (kv : KvCheck)
    (path method : Str) (headers : Headers) (peerIp : Option Str)
    (query : Option Str) (route : ApiRoute) (service : BackendService)
    (limits : List RateLimit)
    (hroute : routeRequest cfg path method = some (route, service))
    (hwl : ∀ rules, getWhitelistRules cfg route.id = some rules →
        (validateRequest rules headers (clientIpOf headers peerIp)).1 = true)
    (hhealthy : isHealthy health service.id = true)
    (hlimits : getRateLimits cfg route.id = some limits)
    (herr : checkLimits kv route.id headers peerIp limits = .error ()) :
    requestFilter cfg health true kv path method headers peerIp query =
      .internalError ∧
    ∀ ctx, requestFilter cfg health true kv path method headers peerIp query ≠
      .forward ctx := by
  have hmain : requestFilter cfg health true kv path method headers peerIp query =
      .internalError := by
    unfold requestFilter
    rw [hroute]
    have hwlOk : (match getWhitelistRules cfg route.id with
        | none => true
        | some rules =>
            (validateRequest rules headers (clientIpOf headers peerIp)).1) = true := by
      cases hgw : getWhitelistRules cfg route.id with
      | none => rfl
      | some rules => exact hwl rules hgw
    dsimp only
    rw [hwlOk]
    rw [if_neg (by simp)]
    rw [hhealthy]
    rw [if_neg (by simp)]
    rw [if_pos rfl, hlimits]
    dsimp only
    rw [herr]
  exact ⟨hmain, fun ctx h => by rw [hmain] at h; exact FilterOutcome.noConfusion h⟩

/-- A single route-scoped rate limit on `payRoute`. -/
def payLimit : RateLimit :=
  { id := 11
    name := "pay-limit".toList
    api_route_id := some 4
    max_requests := 100
    window_seconds := 60
    identifier_type := .Ip
    is_active := true
    burst_size := none }

/-- A snapshot with the pay route, its backend and its rate limit, and no
whitelist rules. -/
def payConfig : GatewayConfig :=
  { services := [(9, httpsBackend)]
    routes := [payRoute]
    rate_limits := [(some 4, [payLimit])]
    whitelist_rules := [] }

/-- A limiter whose KV store is down: every check fails. -/
def kvAlwaysErr : KvCheck := fun _ _ _ _ _ _ => .error ()

/-- C8 witness: a request through `payConfig` with the KV store down ends
in an internal error. -/
theorem limiter_transport_error_fails_closed_witness :
    requestFilter payConfig [] true kvAlwaysErr "/pay/checkout".toList
        "POST".toList [] none none = .internalError :=
  (limiter_transport_error_fails_closed payConfig [] kvAlwaysErr
      "/pay/checkout".toList "POST".toList [] none none payRoute httpsBackend
      [payLimit] (by decide)
      (fun rules h => by
        rw [show getWhitelistRules payConfig payRoute.id = none from rfl] at h
        exact Option.noConfusion h)
      rfl rfl rfl).1

end Karateway
